import Mathlib

/-!
Verification of the geometry simplification and preprocessing pipeline of
the meshtastic-map-overlays repository (consolidate_overlays.py and
preprocess_geojson.py).

Embedding conventions:
- Python floats are modelled as exact rationals.
- The source function perpendicular_distance returns a square root; since
  the algorithm only COMPARES distances with each other and with the
  tolerance, we model the squared distance, which is rational, and square
  the tolerance at the comparison site.  For tolerance at least 0 both
  comparisons agree, because squaring is strictly monotone on nonnegative
  reals; the modelled comparison is `tol * tol < dsq`.
- Code that can raise an exception (indexing an empty or non-list value in
  truncate_coordinates) is modelled with Option, none meaning the raise.
- The two scripts contain an identical douglas_peucker, an identical
  truncate_coordinates and an identical strategy-dispatch chain; each is
  embedded once.
-/

/-- A coordinate pair, longitude then latitude, as in the source lists
`[lon, lat]`. -/
abbrev Point := ℚ × ℚ

/-- Squared form of perpendicular_distance (consolidate_overlays.py lines
784-809, preprocess_geojson.py lines 894-919).  The source returns
`sqrt((x-x1)^2+(y-y1)^2)` in the degenerate branch and
`|num| / sqrt(den)` in the main branch; we return the square of each,
namely `(x-x1)^2+(y-y1)^2` and `num^2 / den`. -/
def perpendicular_distance_sq (p line_start line_end : Point) : ℚ :=
  if line_start = line_end then
    (p.1 - line_start.1) ^ 2 + (p.2 - line_start.2) ^ 2
  else
    ((line_end.2 - line_start.2) * p.1 - (line_end.1 - line_start.1) * p.2
        + line_end.1 * line_start.2 - line_end.2 * line_start.1) ^ 2
      / ((line_end.2 - line_start.2) ^ 2 + (line_end.1 - line_start.1) ^ 2)

/-- The maximum-distance scan of douglas_peucker: the source loop
`for i in range(1, len(points) - 1)` keeping `(max_index, max_distance)`
with a strict `>` update, started at `(0, 0)`.  The list argument carries
the interior points already paired with their indices. -/
def scanMax (line_start line_end : Point) :
    List (ℕ × Point) → ℕ × ℚ → ℕ × ℚ
  | [], acc => acc
  | ip :: rest, acc =>
      scanMax line_start line_end rest
        (if acc.2 < perpendicular_distance_sq ip.2 line_start line_end
         then (ip.1, perpendicular_distance_sq ip.2 line_start line_end)
         else acc)

/-- The `(max_index, max_distance)` pair computed by douglas_peucker over
the interior points `points[1..len-2]`, indexed from 1. -/
def find_max_interior (points : List Point) : ℕ × ℚ :=
  scanMax points.headI points.getLastI
    (List.enumFrom 1 points.tail.dropLast) (0, 0)

/-- douglas_peucker (consolidate_overlays.py lines 744-782,
preprocess_geojson.py lines 854-892).  `points[:max_index + 1]` is
`take (max_index + 1)`, `points[max_index:]` is `drop max_index`, and
`left[:-1] + right` is `left.dropLast ++ right`.  The comparison
`max_distance > tolerance` is modelled on squares as explained in the
header. -/
def douglas_peucker (points : List Point) (tolerance : ℚ) : List Point :=
  if points.length ≤ 2 then points
  else
    if tolerance * tolerance < (find_max_interior points).2 then
      (douglas_peucker (points.take ((find_max_interior points).1 + 1))
          tolerance).dropLast
        ++ douglas_peucker (points.drop (find_max_interior points).1) tolerance
    else
      [points.headI, points.getLastI]
termination_by points.length
decreasing_by
  all_goals
    have hpos : 0 < (find_max_interior points).2 :=
      lt_of_le_of_lt (mul_self_nonneg tolerance) (by assumption)
    have key : ∀ (s e : Point) (l : List (ℕ × Point)) (acc : ℕ × ℚ),
        scanMax s e l acc = acc ∨
          ∃ ip ∈ l, scanMax s e l acc =
            (ip.1, perpendicular_distance_sq ip.2 s e) := by
      intro s e l
      induction l with
      | nil => intro acc; left; simp [scanMax]
      | cons ip rest ih =>
        intro acc
        simp only [scanMax]
        rcases ih (if acc.2 < perpendicular_distance_sq ip.2 s e
            then (ip.1, perpendicular_distance_sq ip.2 s e) else acc) with
          h | ⟨jp, hjp, h⟩
        · rw [h]
          split
          · right; exact ⟨ip, List.mem_cons_self ip rest, rfl⟩
          · left; rfl
        · right; exact ⟨jp, List.mem_cons_of_mem _ hjp, h⟩
    have hb : 1 ≤ (find_max_interior points).1 ∧
        (find_max_interior points).1 + 1 < points.length := by
      unfold find_max_interior at hpos ⊢
      rcases key points.headI points.getLastI
          (List.enumFrom 1 points.tail.dropLast) (0, 0) with h | ⟨ip, hmem, h⟩
      · rw [h] at hpos; norm_num at hpos
      · obtain ⟨h1, h2, -⟩ := List.mem_enumFrom hmem
        have hlen : points.tail.dropLast.length = points.length - 2 := by
          simp only [List.length_dropLast, List.length_tail]
          omega
        rw [h]
        simp only
        omega
    first
      | (simp only [List.length_take]; omega)
      | (simp only [List.length_drop]; omega)

/-- Geometry as the closed tagged variant over the six GeoJSON geometry
kinds, with the nested coordinate shape determined by the tag (spec
section 3); the scripts inspect `geometry["type"]` strings, modelled by
`Geometry.typeName` below. -/
inductive Geometry where
  | point (coordinates : Point)
  | lineString (coordinates : List Point)
  | polygon (coordinates : List (List Point))
  | multiPoint (coordinates : List Point)
  | multiLineString (coordinates : List (List Point))
  | multiPolygon (coordinates : List (List (List Point)))

/-- The value of `geometry["type"]` for each variant. -/
def Geometry.typeName : Geometry → String
  | .point _ => "Point"
  | .lineString _ => "LineString"
  | .polygon _ => "Polygon"
  | .multiPoint _ => "MultiPoint"
  | .multiLineString _ => "MultiLineString"
  | .multiPolygon _ => "MultiPolygon"

/-- simplify_geometry (consolidate_overlays.py lines 707-742): douglas_peucker
applied to the single sequence of a LineString, independently per ring or
line for Polygon and MultiLineString, and per ring of every polygon for
MultiPolygon; other types, and geometries with empty top-level
coordinates, are returned unchanged. -/
def simplify_geometry (geometry : Geometry) (tolerance : ℚ) : Geometry :=
  match geometry with
  | .lineString coordinates =>
      if coordinates.isEmpty then geometry
      else .lineString (douglas_peucker coordinates tolerance)
  | .polygon coordinates =>
      if coordinates.isEmpty then geometry
      else .polygon (coordinates.map fun ring => douglas_peucker ring tolerance)
  | .multiLineString coordinates =>
      if coordinates.isEmpty then geometry
      else .multiLineString
        (coordinates.map fun line => douglas_peucker line tolerance)
  | .multiPolygon coordinates =>
      if coordinates.isEmpty then geometry
      else .multiPolygon (coordinates.map fun polygon =>
        polygon.map fun ring => douglas_peucker ring tolerance)
  | g => g

/-- calculate_simple_bounding_box (consolidate_overlays.py lines 988-1011).
The source seeds the min/max folds with infinities and folds over every
coordinate; for a nonempty list this equals seeding with the first
coordinate and folding over the rest, which is how we model it (the only
caller guards the list to hold at least 3 coordinates).  The empty case,
which in the source would emit infinities, is modelled as the empty
list. -/
def calculate_simple_bounding_box (coordinates : List Point) : List Point :=
  match coordinates with
  | [] => []
  | c :: rest =>
      let min_lon := rest.foldl (fun m p => min m p.1) c.1
      let max_lon := rest.foldl (fun m p => max m p.1) c.1
      let min_lat := rest.foldl (fun m p => min m p.2) c.2
      let max_lat := rest.foldl (fun m p => max m p.2) c.2
      [(min_lon, min_lat), (max_lon, min_lat), (max_lon, max_lat),
        (min_lon, max_lat), (min_lon, min_lat)]

/-- The `all_coords` list collected by simplify_to_rectangle: every
coordinate of every ring (of every polygon, for MultiPolygon), in
extension order; empty for the other variants. -/
def collect_polygon_coords : Geometry → List Point
  | .polygon rings => rings.flatten
  | .multiPolygon polygons =>
      (polygons.map fun polygon => polygon.flatten).flatten
  | _ => []

/-- simplify_to_rectangle (consolidate_overlays.py lines 829-873,
preprocess_geojson.py lines 939-983): for Polygon and MultiPolygon with a
nonempty coordinates array, collect all coordinates; with fewer than 3
return the geometry unchanged, otherwise emit the single-ring bounding-box
Polygon.  Everything else is returned unchanged. -/
def simplify_to_rectangle (geometry : Geometry) : Geometry :=
  match geometry with
  | .polygon rings =>
      if rings.isEmpty then geometry
      else if (collect_polygon_coords geometry).length < 3 then geometry
      else .polygon
        [calculate_simple_bounding_box (collect_polygon_coords geometry)]
  | .multiPolygon polygons =>
      if polygons.isEmpty then geometry
      else if (collect_polygon_coords geometry).length < 3 then geometry
      else .polygon
        [calculate_simple_bounding_box (collect_polygon_coords geometry)]
  | g => g

/-- Rounding of one float to 5 decimal places, as the source
`round(x, 5)`: scale by 10^5, round to the nearest integer with ties to
even (the Python default), scale back. -/
def round_half_even (x : ℚ) : ℤ :=
  if Int.fract x < 1 / 2 then ⌊x⌋
  else if 1 / 2 < Int.fract x then ⌊x⌋ + 1
  else if ⌊x⌋ % 2 = 0 then ⌊x⌋ else ⌊x⌋ + 1

/-- The source expression `round(q, 5)`. -/
def round5 (q : ℚ) : ℚ := (round_half_even (q * 100000) : ℚ) / 100000

/-- Untyped nested coordinate data, as the dynamic value held under
`geometry["coordinates"]`: either a number or an array of such values.
truncate_coordinates inspects this shape at run time, so its claims are
settled over this untyped form. -/
inductive CoordData where
  | num (q : ℚ)
  | arr (elems : List CoordData)

/-- Size measure on untyped coordinate data, used only in proofs. -/
def sizeCoordList : List CoordData → ℕ
  | [] => 1
  | .num _ :: rest => 1 + sizeCoordList rest
  | .arr ys :: rest => 1 + sizeCoordList ys + sizeCoordList rest

mutual
/-- The inner helper truncate_coord_array of truncate_coordinates
(consolidate_overlays.py lines 813-819, preprocess_geojson.py lines
923-929).  `coords[0]` on an empty list raises IndexError, modelled as
none; if `coords[0]` is a number the source returns
`[round(coords[0], 5), round(coords[1], 5)]`, where `coords[1]` must
exist and be a number or the call raises, and any further components are
ignored; otherwise the source maps itself over every element. -/
def truncate_coord_array : List CoordData → Option (List CoordData)
  | [] => none
  | .num q0 :: rest =>
      match rest with
      | .num q1 :: _ => some [.num (round5 q0), .num (round5 q1)]
      | _ => none
  | .arr ys :: rest => do
      let y ← truncate_coord_array ys
      let r ← truncate_coord_each rest
      pure (.arr y :: r)
termination_by l => sizeCoordList l
decreasing_by
  all_goals simp only [sizeCoordList]
  all_goals omega

/-- The element-wise mapping `[truncate_coord_array(coord) for coord in
coords]` continued past the first element: applying truncate_coord_array
to a number raises (subscripting a float), modelled as none; an element
that is an array is truncated by truncate_coord_array. -/
def truncate_coord_each : List CoordData → Option (List CoordData)
  | [] => some []
  | .num _ :: _ => none
  | .arr ys :: rest => do
      let y ← truncate_coord_array ys
      let r ← truncate_coord_each rest
      pure (.arr y :: r)
termination_by l => sizeCoordList l
decreasing_by
  all_goals simp only [sizeCoordList]
  all_goals omega
end

/-- The run-time shape of a geometry dict as truncate_coordinates sees it:
a type string and the untyped coordinates array. -/
structure GeometryObj where
  type : String
  coordinates : List CoordData

/-- truncate_coordinates (consolidate_overlays.py lines 811-827,
preprocess_geojson.py lines 921-937): an empty (falsy) top-level
coordinates array is left untouched, otherwise truncate_coord_array
replaces it; none models a raised exception inside the helper. -/
def truncate_coordinates (geometry : GeometryObj) : Option GeometryObj :=
  if geometry.coordinates.isEmpty then some geometry
  else (truncate_coord_array geometry.coordinates).map
    fun cs => { geometry with coordinates := cs }

/-- The rounding transform described by the spec for truncation: keep the
array structure exactly and round every numeric leaf to 5 decimals.  Used
to state what truncate_coord_array computes on well-formed input. -/
def round_coord_tree : List CoordData → List CoordData
  | [] => []
  | .num q :: rest => .num (round5 q) :: round_coord_tree rest
  | .arr ys :: rest => .arr (round_coord_tree ys) :: round_coord_tree rest

/-- Skeleton of untyped coordinate data: every number replaced by 0, so
two lists with equal skeletons have identical nesting depth and identical
element counts at every level. -/
def coord_skeleton : List CoordData → List CoordData
  | [] => []
  | .num _ :: rest => .num 0 :: coord_skeleton rest
  | .arr ys :: rest => .arr (coord_skeleton ys) :: coord_skeleton rest

mutual
/-- Well-formed 2D coordinate arrays: a leaf is exactly a pair of numbers,
and every other level is a nonempty array of well-formed arrays. -/
def wf_coord_array : List CoordData → Bool
  | [] => false
  | [.num _, .num _] => true
  | .num _ :: _ => false
  | .arr ys :: rest => wf_coord_array ys && wf_coord_elems rest
termination_by l => sizeCoordList l
decreasing_by
  all_goals simp only [sizeCoordList]
  all_goals omega

/-- Well-formedness of the elements after the first of a non-leaf array. -/
def wf_coord_elems : List CoordData → Bool
  | [] => true
  | .num _ :: _ => false
  | .arr ys :: rest => wf_coord_array ys && wf_coord_elems rest
termination_by l => sizeCoordList l
decreasing_by
  all_goals simp only [sizeCoordList]
  all_goals omega
end

/-- Rounding of one typed coordinate pair to 5 decimal places. -/
def round_point (p : Point) : Point := (round5 p.1, round5 p.2)

/-- The action of truncate_coordinates on a well-typed geometry,
INCLUDING its error behaviour: the result is none exactly when the source
raises, namely when some nested coordinate array that truncate_coord_array
recurses into is empty (an empty ring or line, or an empty polygon inside
a MultiPolygon); otherwise every leaf pair is rounded and the structure is
unchanged.  A geometry whose TOP-LEVEL coordinates array is empty is the
source no-op, which coincides with mapping over the empty list.  This
definition is certified against the untyped truncate_coordinates, case by
case and unconditionally, by truncate_geometry_correspondence below. -/
def truncate_geometry : Geometry → Option Geometry
  | .point c => some (.point (round_point c))
  | .lineString cs => some (.lineString (cs.map round_point))
  | .multiPoint cs => some (.multiPoint (cs.map round_point))
  | .polygon rings =>
      if rings.any List.isEmpty then none
      else some (.polygon (rings.map (List.map round_point)))
  | .multiLineString ls =>
      if ls.any List.isEmpty then none
      else some (.multiLineString (ls.map (List.map round_point)))
  | .multiPolygon ps =>
      if ps.any (fun polygon => polygon.isEmpty || polygon.any List.isEmpty)
      then none
      else some (.multiPolygon (ps.map (List.map (List.map round_point))))

/-- Erasure of a typed coordinate pair to the untyped run-time value
`[lon, lat]`. -/
def pointToCoordData (p : Point) : CoordData := .arr [.num p.1, .num p.2]

/-- Erasure of a typed geometry to the untyped value held under
`geometry["coordinates"]`, used to certify truncate_geometry against the
untyped truncate_coordinates. -/
def Geometry.toCoordData : Geometry → List CoordData
  | .point c => [.num c.1, .num c.2]
  | .lineString cs => cs.map pointToCoordData
  | .polygon rings => rings.map fun ring => .arr (ring.map pointToCoordData)
  | .multiPoint cs => cs.map pointToCoordData
  | .multiLineString ls => ls.map fun line => .arr (line.map pointToCoordData)
  | .multiPolygon ps => ps.map fun polygon =>
      .arr (polygon.map fun ring => .arr (ring.map pointToCoordData))

/-- The per-layer configuration fields read by preprocess_geojson:
`layer_config.get("simplificationStrategy", "none")`,
`layer_config.get("simplificationTolerance", 0.0)` and
`layer_config.get("noCompression", False)`. -/
structure LayerConfig where
  simplificationStrategy : String
  simplificationTolerance : ℚ
  noCompression : Bool

/-- The strategy-dispatch chain inlined in preprocess_geojson
(consolidate_overlays.py lines 673-685, preprocess_geojson.py lines
783-795), identical in both scripts: noCompression first, then rectangle
on Polygon/MultiPolygon, then douglas_peucker with positive tolerance,
else the geometry unchanged. -/
def select_simplified_geometry (cfg : LayerConfig) (geometry : Geometry) :
    Geometry :=
  if cfg.noCompression then geometry
  else if cfg.simplificationStrategy = "rectangle" ∧
      (geometry.typeName = "Polygon" ∨ geometry.typeName = "MultiPolygon") then
    simplify_to_rectangle geometry
  else if cfg.simplificationStrategy = "douglas_peucker" ∧
      0 < cfg.simplificationTolerance then
    simplify_geometry geometry cfg.simplificationTolerance
  else geometry

/-- A feature as the scripts consume it: a geometry, the optional `id`
field of the feature dict, and free-form properties. -/
structure Feature where
  geometry : Geometry
  id : Option String
  properties : List (String × String)

/-- A FeatureCollection: the `type` string and the features array. -/
structure FeatureCollection where
  type : String
  features : List Feature

/-- The geometry types accepted by the filter of preprocess_geojson in
consolidate_overlays.py line 670. -/
def accepted_types_consolidate : List String :=
  ["LineString", "Polygon", "MultiLineString", "MultiPolygon"]

/-- The geometry types accepted by the filter of preprocess_geojson in
preprocess_geojson.py line 780. -/
def accepted_types_full : List String :=
  ["Point", "LineString", "Polygon", "MultiPoint", "MultiLineString",
    "MultiPolygon"]

/-- The per-feature body of preprocess_geojson in consolidate_overlays.py
lines 673-698: simplify per the dispatch chain, truncate (which may
raise: none), and rebuild the feature with EMPTY properties, keeping `id`
when present. -/
def process_feature_consolidate (cfg : LayerConfig) (feature : Feature) :
    Option Feature :=
  (truncate_geometry (select_simplified_geometry cfg feature.geometry)).map
    fun truncated =>
      { geometry := truncated, id := feature.id, properties := [] }

/-- The per-feature body of preprocess_geojson in preprocess_geojson.py
lines 783-808: same simplify-then-truncate order (truncation may raise:
none), but the original properties are copied over verbatim, and `id` is
kept when present. -/
def process_feature_retain (cfg : LayerConfig) (feature : Feature) :
    Option Feature :=
  (truncate_geometry (select_simplified_geometry cfg feature.geometry)).map
    fun truncated =>
      { geometry := truncated, id := feature.id,
        properties := feature.properties }

/-- The feature loop shared by both preprocess_geojson variants: skip a
feature whose geometry type is not accepted, process the rest in order,
and propagate a raise (none) out of the whole loop, as an uncaught
exception would. -/
def preprocess_features (accepted : List String)
    (process : Feature → Option Feature) : List Feature →
    Option (List Feature)
  | [] => some []
  | feature :: rest =>
      if feature.geometry.typeName ∈ accepted then do
        let pf ← process feature
        let pr ← preprocess_features accepted process rest
        pure (pf :: pr)
      else preprocess_features accepted process rest

/-- preprocess_geojson of consolidate_overlays.py lines 648-705: the
feature loop keeps exactly the features whose geometry type passes the
filter, in order, transforming each; a raise inside any transform
propagates (none), otherwise the result is a fresh FeatureCollection. -/
def preprocess_geojson (data : FeatureCollection) (cfg : LayerConfig) :
    Option FeatureCollection :=
  (preprocess_features accepted_types_consolidate
      (process_feature_consolidate cfg) data.features).map
    fun fs => { type := "FeatureCollection", features := fs }

/-- preprocess_geojson of preprocess_geojson.py lines 758-815: identical
loop with the six-type filter and the property-retaining feature body. -/
def preprocess_geojson_retain (data : FeatureCollection) (cfg : LayerConfig) :
    Option FeatureCollection :=
  (preprocess_features accepted_types_full
      (process_feature_retain cfg) data.features).map
    fun fs => { type := "FeatureCollection", features := fs }

/-- Three points are collinear when the cross product of the two
difference vectors vanishes; used to state the tolerance-zero claim. -/
def collinear (p q r : Point) : Prop :=
  (q.1 - p.1) * (r.2 - p.2) - (q.2 - p.2) * (r.1 - p.1) = 0

/-! ## Helper lemmas about the maximum-distance scan -/

theorem perpendicular_distance_sq_nonneg (p s e : Point) :
    0 ≤ perpendicular_distance_sq p s e := by
  unfold perpendicular_distance_sq
  split
  · positivity
  · apply div_nonneg (sq_nonneg _)
    positivity

theorem scanMax_acc_le (s e : Point) (l : List (ℕ × Point)) (acc : ℕ × ℚ) :
    acc.2 ≤ (scanMax s e l acc).2 := by
  induction l generalizing acc with
  | nil => simp [scanMax]
  | cons ip rest ih =>
    simp only [scanMax]
    refine le_trans ?_ (ih _)
    split
    · exact le_of_lt (by assumption)
    · exact le_rfl

theorem scanMax_eq_or_mem (s e : Point) (l : List (ℕ × Point)) (acc : ℕ × ℚ) :
    scanMax s e l acc = acc ∨
      ∃ ip ∈ l, scanMax s e l acc =
        (ip.1, perpendicular_distance_sq ip.2 s e) := by
  induction l generalizing acc with
  | nil => left; simp [scanMax]
  | cons ip rest ih =>
    simp only [scanMax]
    rcases ih (if acc.2 < perpendicular_distance_sq ip.2 s e
        then (ip.1, perpendicular_distance_sq ip.2 s e) else acc) with
      h | ⟨jp, hjp, h⟩
    · rw [h]
      split
      · right; exact ⟨ip, List.mem_cons_self ip rest, rfl⟩
      · left; rfl
    · right; exact ⟨jp, List.mem_cons_of_mem _ hjp, h⟩

theorem scanMax_le (s e : Point) (l : List (ℕ × Point)) (acc : ℕ × ℚ)
    (ip : ℕ × Point) (hmem : ip ∈ l) :
    perpendicular_distance_sq ip.2 s e ≤ (scanMax s e l acc).2 := by
  induction l generalizing acc with
  | nil => simp at hmem
  | cons jp rest ih =>
    rcases List.mem_cons.1 hmem with rfl | hmem'
    · simp only [scanMax]
      refine le_trans ?_ (scanMax_acc_le s e rest _)
      split
      · exact le_rfl
      · exact le_of_not_lt (by assumption)
    · simp only [scanMax]
      exact ih _ hmem'

theorem find_max_interior_nonneg (points : List Point) :
    0 ≤ (find_max_interior points).2 :=
  scanMax_acc_le _ _ _ (0, 0)

theorem find_max_interior_bound (points : List Point)
    (hpos : 0 < (find_max_interior points).2) :
    1 ≤ (find_max_interior points).1 ∧
      (find_max_interior points).1 + 1 < points.length := by
  unfold find_max_interior at hpos ⊢
  rcases scanMax_eq_or_mem points.headI points.getLastI
      (List.enumFrom 1 points.tail.dropLast) (0, 0) with h | ⟨ip, hmem, h⟩
  · rw [h] at hpos; norm_num at hpos
  · obtain ⟨h1, h2, -⟩ := List.mem_enumFrom hmem
    have hlen : points.tail.dropLast.length = points.length - 2 := by
      simp only [List.length_dropLast, List.length_tail]
      omega
    rw [h]
    simp only
    omega

/-! ## Helper lemmas about lists -/

theorem sublist_concat_dropLast {α : Type} {l m : List α} {a : α}
    (h : l.Sublist (m ++ [a])) : l.dropLast.Sublist m := by
  rcases List.sublist_append_iff.1 h with ⟨l1, l2, rfl, h1, h2⟩
  rcases List.sublist_singleton.1 h2 with rfl | rfl
  · simpa using (List.dropLast_sublist l1).trans h1
  · simpa [List.dropLast_concat] using h1

theorem head?_dropLast_of_two_le {α : Type} :
    ∀ (l : List α), 2 ≤ l.length → l.dropLast.head? = l.head?
  | a :: b :: t, _ => by simp

theorem take_succ_of_lt {α : Type} {l : List α} {n : ℕ} (h : n < l.length) :
    l.take (n + 1) = l.take n ++ [l[n]] := by
  rw [List.take_succ, List.getElem?_eq_getElem h]
  rfl

/-! ## Structural properties of douglas_peucker -/

theorem douglas_peucker_spec_aux :
    ∀ (n : ℕ) (points : List Point) (tolerance : ℚ), points.length ≤ n →
      (douglas_peucker points tolerance).Sublist points ∧
      (douglas_peucker points tolerance).head? = points.head? ∧
      (douglas_peucker points tolerance).getLast? = points.getLast? ∧
      (2 ≤ points.length →
        2 ≤ (douglas_peucker points tolerance).length) := by
  intro n
  induction n with
  | zero =>
    intro points tol hlen
    have hnil : points = [] := List.eq_nil_of_length_eq_zero (by omega)
    subst hnil
    rw [douglas_peucker]
    simp
  | succ n ih =>
    intro points tol hlen
    by_cases h2 : points.length ≤ 2
    · rw [douglas_peucker, if_pos h2]
      exact ⟨List.Sublist.refl _, rfl, rfl, fun h => h⟩
    · push_neg at h2
      by_cases hrec : tol * tol < (find_max_interior points).2
      · rw [douglas_peucker, if_neg (by omega), if_pos hrec]
        obtain ⟨hi1, hi2⟩ := find_max_interior_bound points
          (lt_of_le_of_lt (mul_self_nonneg tol) hrec)
        have hlenTake : (points.take ((find_max_interior points).1 + 1)).length
            = (find_max_interior points).1 + 1 := by
          simp [List.length_take]
          omega
        have hlenDrop : (points.drop (find_max_interior points).1).length
            = points.length - (find_max_interior points).1 := by simp
        obtain ⟨Lsub, Lhead, Llast, Llen⟩ :=
          ih (points.take ((find_max_interior points).1 + 1)) tol
            (by rw [hlenTake]; omega)
        obtain ⟨Rsub, Rhead, Rlast, Rlen⟩ :=
          ih (points.drop (find_max_interior points).1) tol
            (by rw [hlenDrop]; omega)
        have hL2 := Llen (by rw [hlenTake]; omega)
        have hR2 := Rlen (by rw [hlenDrop]; omega)
        refine ⟨?_, ?_, ?_, ?_⟩
        · obtain ⟨x, htake⟩ : ∃ x, points.take ((find_max_interior points).1 + 1)
              = points.take (find_max_interior points).1 ++ [x] :=
            ⟨_, take_succ_of_lt (by omega)⟩
          have hsub : (douglas_peucker
              (points.take ((find_max_interior points).1 + 1)) tol).Sublist
              (points.take (find_max_interior points).1 ++ [x]) := by
            rw [← htake]
            exact Lsub
          have hdl : (douglas_peucker
                (points.take ((find_max_interior points).1 + 1))
                tol).dropLast.Sublist
              (points.take (find_max_interior points).1) :=
            sublist_concat_dropLast hsub
          have := hdl.append Rsub
          rwa [List.take_append_drop] at this
        · rw [List.head?_append]
          have e1 : (douglas_peucker
              (points.take ((find_max_interior points).1 + 1))
              tol).dropLast.head? = points.head? := by
            rw [head?_dropLast_of_two_le _ hL2, Lhead, List.head?_take]
            simp
          rw [e1]
          obtain ⟨a, ha⟩ : ∃ a, points.head? = some a := by
            cases points with
            | nil => simp at h2
            | cons a as => exact ⟨a, rfl⟩
          rw [ha]
          rfl
        · rw [List.getLast?_append]
          have e1 : (douglas_peucker (points.drop (find_max_interior points).1)
              tol).getLast? = points.getLast? := by
            rw [Rlast, List.getLast?_drop, if_neg (by omega)]
          rw [e1]
          obtain ⟨a, ha⟩ : ∃ a, points.getLast? = some a := by
            cases points with
            | nil => simp at h2
            | cons a as =>
              exact ⟨(a :: as).getLast (by simp),
                List.getLast?_eq_getLast _ (by simp)⟩
          rw [ha]
          rfl
        · intro _
          rw [List.length_append, List.length_dropLast]
          omega
      · rw [douglas_peucker, if_neg (by omega), if_neg hrec]
        obtain ⟨p, rest, rfl⟩ : ∃ p rest, points = p :: rest := by
          cases points with
          | nil => simp at h2
          | cons p rest => exact ⟨p, rest, rfl⟩
        have hrne : rest ≠ [] := by
          intro hcon
          subst hcon
          simp at h2
        have hgl : (p :: rest).getLastI = (p :: rest).getLast (by simp) := by
          rw [List.getLastI_eq_getLast?, List.getLast?_eq_getLast _ (by simp)]
        refine ⟨?_, ?_, ?_, ?_⟩
        · simp only [List.headI, hgl]
          apply List.Sublist.cons₂
          rw [List.getLast_cons hrne]
          exact List.singleton_sublist.2 (List.getLast_mem hrne)
        · simp [List.headI]
        · rw [hgl]
          simp [List.getLast?_eq_getLast _ (by simp : p :: rest ≠ [])]
        · intro _
          simp

theorem douglas_peucker_mono_aux :
    ∀ (n : ℕ) (points : List Point) (t1 t2 : ℚ), points.length ≤ n →
      0 ≤ t1 → t1 ≤ t2 →
      (douglas_peucker points t2).length ≤
        (douglas_peucker points t1).length := by
  intro n
  induction n with
  | zero =>
    intro points t1 t2 hlen _ _
    have hnil : points = [] := List.eq_nil_of_length_eq_zero (by omega)
    subst hnil
    rw [douglas_peucker, douglas_peucker]
    simp
  | succ n ih =>
    intro points t1 t2 hlen h0 h12
    by_cases h2 : points.length ≤ 2
    · rw [douglas_peucker, if_pos h2, douglas_peucker, if_pos h2]
    · push_neg at h2
      by_cases hrec2 : t2 * t2 < (find_max_interior points).2
      · have hrec1 : t1 * t1 < (find_max_interior points).2 :=
          lt_of_le_of_lt (mul_self_le_mul_self h0 h12) hrec2
        have e2 : douglas_peucker points t2 =
            (douglas_peucker (points.take ((find_max_interior points).1 + 1))
              t2).dropLast
            ++ douglas_peucker (points.drop (find_max_interior points).1) t2 := by
          rw [douglas_peucker, if_neg (by omega), if_pos hrec2]
        have e1 : douglas_peucker points t1 =
            (douglas_peucker (points.take ((find_max_interior points).1 + 1))
              t1).dropLast
            ++ douglas_peucker (points.drop (find_max_interior points).1) t1 := by
          rw [douglas_peucker, if_neg (by omega), if_pos hrec1]
        rw [e2, e1]
        obtain ⟨hi1, hi2⟩ := find_max_interior_bound points
          (lt_of_le_of_lt (mul_self_nonneg t2) hrec2)
        have hlenTake : (points.take ((find_max_interior points).1 + 1)).length
            = (find_max_interior points).1 + 1 := by
          simp [List.length_take]
          omega
        have hlenDrop : (points.drop (find_max_interior points).1).length
            = points.length - (find_max_interior points).1 := by simp
        have hLmono := ih (points.take ((find_max_interior points).1 + 1))
          t1 t2 (by rw [hlenTake]; omega) h0 h12
        have hRmono := ih (points.drop (find_max_interior points).1)
          t1 t2 (by rw [hlenDrop]; omega) h0 h12
        have hL1 := (douglas_peucker_spec_aux
            (points.take ((find_max_interior points).1 + 1)).length
            (points.take ((find_max_interior points).1 + 1)) t1 le_rfl).2.2.2
          (by rw [hlenTake]; omega)
        have hR1 := (douglas_peucker_spec_aux
            (points.drop (find_max_interior points).1).length
            (points.drop (find_max_interior points).1) t1 le_rfl).2.2.2
          (by rw [hlenDrop]; omega)
        have hL2 := (douglas_peucker_spec_aux
            (points.take ((find_max_interior points).1 + 1)).length
            (points.take ((find_max_interior points).1 + 1)) t2 le_rfl).2.2.2
          (by rw [hlenTake]; omega)
        simp only [List.length_append, List.length_dropLast]
        omega
      · rw [douglas_peucker, if_neg (by omega), if_neg hrec2]
        have h2le : 2 ≤ (douglas_peucker points t1).length :=
          (douglas_peucker_spec_aux points.length points t1 le_rfl).2.2.2
            (by omega)
        simp only [List.length_cons, List.length_nil]
        omega

theorem douglas_peucker_zero_aux :
    ∀ (n : ℕ) (points : List Point), points.length ≤ n →
      (∀ p q r : Point, [p, q, r].Sublist points → ¬ collinear p q r) →
      douglas_peucker points 0 = points := by
  intro n
  induction n with
  | zero =>
    intro points hlen _
    have hnil : points = [] := List.eq_nil_of_length_eq_zero (by omega)
    subst hnil
    rw [douglas_peucker]
    simp
  | succ n ih =>
    intro points hlen hcol
    by_cases h2 : points.length ≤ 2
    · rw [douglas_peucker, if_pos h2]
    · push_neg at h2
      obtain ⟨p0, tl, rfl⟩ : ∃ p0 tl, points = p0 :: tl := by
        cases points with
        | nil => simp at h2
        | cons p0 tl => exact ⟨p0, tl, rfl⟩
      obtain ⟨p1, rest, rfl⟩ : ∃ p1 rest, tl = p1 :: rest := by
        cases tl with
        | nil => simp at h2
        | cons p1 rest => exact ⟨p1, rest, rfl⟩
      have hrne : rest ≠ [] := by
        intro hcon
        subst hcon
        simp at h2
      have hlen2 : (p0 :: p1 :: rest).length = rest.length + 2 := by simp
      have hgl : (p0 :: p1 :: rest).getLastI
          = (p0 :: p1 :: rest).getLast (by simp) := by
        rw [List.getLastI_eq_getLast?, List.getLast?_eq_getLast _ (by simp)]
      have hsub3 : [p0, p1, (p0 :: p1 :: rest).getLastI].Sublist
          (p0 :: p1 :: rest) := by
        rw [hgl]
        apply List.Sublist.cons₂
        apply List.Sublist.cons₂
        rw [List.getLast_cons (by simp : p1 :: rest ≠ []),
          List.getLast_cons hrne]
        exact List.singleton_sublist.2 (List.getLast_mem hrne)
      have hpos : 0 < (find_max_interior (p0 :: p1 :: rest)).2 := by
        rcases lt_or_eq_of_le (find_max_interior_nonneg (p0 :: p1 :: rest))
          with h | h
        · exact h
        · exfalso
          have hmem : (1, p1) ∈
              List.enumFrom 1 ((p0 :: p1 :: rest).tail.dropLast) := by
            obtain ⟨r1, rs, rfl⟩ : ∃ r1 rs, rest = r1 :: rs := by
              cases rest with
              | nil => exact absurd rfl hrne
              | cons r1 rs => exact ⟨r1, rs, rfl⟩
            simp [List.enumFrom]
          have hle : perpendicular_distance_sq p1
                (p0 :: p1 :: rest).headI (p0 :: p1 :: rest).getLastI
              ≤ (find_max_interior (p0 :: p1 :: rest)).2 :=
            scanMax_le _ _ _ (0, 0) (1, p1) hmem
          rw [← h] at hle
          have hd0 : perpendicular_distance_sq p1
              p0 (p0 :: p1 :: rest).getLastI = 0 :=
            le_antisymm (by simpa [List.headI] using hle)
              (perpendicular_distance_sq_nonneg _ _ _)
          set e := (p0 :: p1 :: rest).getLastI with hedef
          by_cases hse : (p0 : Point) = e
          · rw [perpendicular_distance_sq, if_pos hse] at hd0
            have h1 : p1.1 - p0.1 = 0 := by
              nlinarith [sq_nonneg (p1.1 - p0.1), sq_nonneg (p1.2 - p0.2)]
            have h1' : p1.2 - p0.2 = 0 := by
              nlinarith [sq_nonneg (p1.1 - p0.1), sq_nonneg (p1.2 - p0.2)]
            apply hcol p0 p1 e hsub3
            unfold collinear
            linear_combination (e.2 - p0.2) * h1 - (e.1 - p0.1) * h1'
          · rw [perpendicular_distance_sq, if_neg hse] at hd0
            have hden : (e.2 - p0.2) ^ 2 + (e.1 - p0.1) ^ 2 ≠ 0 := by
              intro hcon
              apply hse
              have hc1 : e.1 - p0.1 = 0 := by
                nlinarith [sq_nonneg (e.2 - p0.2), sq_nonneg (e.1 - p0.1)]
              have hc2 : e.2 - p0.2 = 0 := by
                nlinarith [sq_nonneg (e.2 - p0.2), sq_nonneg (e.1 - p0.1)]
              have : p0.1 = e.1 := by linarith
              have : p0.2 = e.2 := by linarith
              exact Prod.ext (by linarith) (by linarith)
            have hnum : (e.2 - p0.2) * p1.1 - (e.1 - p0.1) * p1.2
                + e.1 * p0.2 - e.2 * p0.1 = 0 := by
              have := (div_eq_zero_iff.1 hd0).resolve_right hden
              exact pow_eq_zero_iff (by norm_num) |>.1 this
            apply hcol p0 p1 e hsub3
            unfold collinear
            linear_combination hnum
      obtain ⟨hi1, hi2⟩ := find_max_interior_bound _ hpos
      rw [douglas_peucker, if_neg (by omega), if_pos (by simpa using hpos)]
      have hL := ih ((p0 :: p1 :: rest).take
          ((find_max_interior (p0 :: p1 :: rest)).1 + 1))
        (by simp [List.length_take]; omega)
        (fun p q r hsub => hcol p q r (hsub.trans (List.take_sublist _ _)))
      have hR := ih ((p0 :: p1 :: rest).drop
          (find_max_interior (p0 :: p1 :: rest)).1)
        (by simp; omega)
        (fun p q r hsub => hcol p q r (hsub.trans (List.drop_sublist _ _)))
      rw [hL, hR, List.dropLast_take (by simpa using hi2),
        Nat.add_sub_cancel, List.take_append_drop]

/-- C1: for every coordinate sequence with at least 2 points and every
tolerance at least 0, douglas_peucker returns a subsequence of the input
(every output point drawn from the input, order preserved), whose first
and last elements equal the first and last input points, and whose length
is at most the input length. -/
theorem douglas_peucker_subsequence_endpoints (P : List Point) (t : ℚ)
    (_hlen : 2 ≤ P.length) (_ht : 0 ≤ t) :
    (douglas_peucker P t).Sublist P ∧
      (douglas_peucker P t).head? = P.head? ∧
      (douglas_peucker P t).getLast? = P.getLast? ∧
      (douglas_peucker P t).length ≤ P.length := by
  obtain ⟨hs, hh, hl, -⟩ := douglas_peucker_spec_aux P.length P t le_rfl
  exact ⟨hs, hh, hl, hs.length_le⟩

/-- Witness for C1 at the three-point second scenario of the spec. -/
theorem douglas_peucker_subsequence_endpoints_witness :
    2 ≤ ([(0, 0), (5, 5), (10, 0)] : List Point).length ∧
      (0 : ℚ) ≤ 1 / 10 ∧
      ((douglas_peucker [(0, 0), (5, 5), (10, 0)] (1 / 10)).Sublist
          [(0, 0), (5, 5), (10, 0)] ∧
        (douglas_peucker [(0, 0), (5, 5), (10, 0)] (1 / 10)).head?
          = ([(0, 0), (5, 5), (10, 0)] : List Point).head? ∧
        (douglas_peucker [(0, 0), (5, 5), (10, 0)] (1 / 10)).getLast?
          = ([(0, 0), (5, 5), (10, 0)] : List Point).getLast? ∧
        (douglas_peucker [(0, 0), (5, 5), (10, 0)] (1 / 10)).length
          ≤ ([(0, 0), (5, 5), (10, 0)] : List Point).length) :=
  ⟨by norm_num, by norm_num,
    douglas_peucker_subsequence_endpoints [(0, 0), (5, 5), (10, 0)] (1 / 10)
      (by norm_num) (by norm_num)⟩

/-- C2: simplification is monotonically non-increasing in the tolerance:
for tolerances t2 at least t1 at least 0, the result at t2 is no longer
than the result at t1, which is no longer than the input. -/
theorem douglas_peucker_monotone (P : List Point) (t1 t2 : ℚ)
    (h0 : 0 ≤ t1) (h12 : t1 ≤ t2) :
    (douglas_peucker P t2).length ≤ (douglas_peucker P t1).length ∧
      (douglas_peucker P t1).length ≤ P.length :=
  ⟨douglas_peucker_mono_aux P.length P t1 t2 le_rfl h0 h12,
    ((douglas_peucker_spec_aux P.length P t1 le_rfl).1).length_le⟩

/-- Witness for C2 at a concrete sequence and tolerance pair. -/
theorem douglas_peucker_monotone_witness :
    (0 : ℚ) ≤ 1 / 10 ∧ (1 : ℚ) / 10 ≤ 6 ∧
      ((douglas_peucker [(0, 0), (5, 5), (10, 0)] 6).length
          ≤ (douglas_peucker [(0, 0), (5, 5), (10, 0)] (1 / 10)).length ∧
        (douglas_peucker [(0, 0), (5, 5), (10, 0)] (1 / 10)).length
          ≤ ([(0, 0), (5, 5), (10, 0)] : List Point).length) :=
  ⟨by norm_num, by norm_num,
    douglas_peucker_monotone [(0, 0), (5, 5), (10, 0)] (1 / 10) 6
      (by norm_num) (by norm_num)⟩

/-- C5: at tolerance zero, a point is dropped only when its perpendicular
distance to the anchor line is exactly zero; hence on inputs in which no
three points (taken in input order) are collinear, douglas_peucker at
tolerance 0 returns the input unchanged. -/
theorem douglas_peucker_zero_generic (P : List Point)
    (h : ∀ p q r : Point, [p, q, r].Sublist P → ¬ collinear p q r) :
    douglas_peucker P 0 = P :=
  douglas_peucker_zero_aux P.length P le_rfl h

/-- Witness for C5 at a three-point sequence with no collinear triple. -/
theorem douglas_peucker_zero_generic_witness :
    (∀ p q r : Point,
        [p, q, r].Sublist ([(0, 0), (1, 0), (0, 1)] : List Point) →
        ¬ collinear p q r) ∧
      douglas_peucker [(0, 0), (1, 0), (0, 1)] 0
        = [(0, 0), (1, 0), (0, 1)] := by
  have hyp : ∀ p q r : Point,
      [p, q, r].Sublist ([(0, 0), (1, 0), (0, 1)] : List Point) →
      ¬ collinear p q r := by
    intro p q r hsub
    have heq := hsub.eq_of_length (by simp)
    obtain ⟨rfl, rfl, rfl⟩ : p = (0, 0) ∧ q = (1, 0) ∧ r = (0, 1) := by
      simpa using heq
    unfold collinear
    norm_num
  exact ⟨hyp, douglas_peucker_zero_generic _ hyp⟩

/-! ## Bounding-box fold lemmas -/

theorem foldl_min_le_init (l : List ℚ) (a : ℚ) : l.foldl min a ≤ a := by
  induction l generalizing a with
  | nil => simp
  | cons x xs ih => exact le_trans (ih (min a x)) (min_le_left a x)

theorem foldl_min_le_mem (l : List ℚ) (a x : ℚ) (hx : x ∈ l) :
    l.foldl min a ≤ x := by
  induction l generalizing a with
  | nil => simp at hx
  | cons y ys ih =>
    rcases List.mem_cons.1 hx with rfl | hx'
    · exact le_trans (foldl_min_le_init ys (min a x)) (min_le_right a x)
    · exact ih _ hx'

theorem foldl_min_attained (l : List ℚ) (a : ℚ) :
    l.foldl min a = a ∨ l.foldl min a ∈ l := by
  induction l generalizing a with
  | nil => left; rfl
  | cons x xs ih =>
    rcases ih (min a x) with h | h
    · rcases min_choice a x with hm | hm
      · left; rw [List.foldl_cons, h, hm]
      · right; rw [List.foldl_cons, h, hm]; exact List.mem_cons_self x xs
    · right; exact List.mem_cons_of_mem _ h

theorem init_le_foldl_max (l : List ℚ) (a : ℚ) : a ≤ l.foldl max a := by
  induction l generalizing a with
  | nil => simp
  | cons x xs ih => exact le_trans (le_max_left a x) (ih (max a x))

theorem mem_le_foldl_max (l : List ℚ) (a x : ℚ) (hx : x ∈ l) :
    x ≤ l.foldl max a := by
  induction l generalizing a with
  | nil => simp at hx
  | cons y ys ih =>
    rcases List.mem_cons.1 hx with rfl | hx'
    · exact le_trans (le_max_right a x) (init_le_foldl_max ys (max a x))
    · exact ih _ hx'

theorem foldl_max_attained (l : List ℚ) (a : ℚ) :
    l.foldl max a = a ∨ l.foldl max a ∈ l := by
  induction l generalizing a with
  | nil => left; rfl
  | cons x xs ih =>
    rcases ih (max a x) with h | h
    · rcases max_choice a x with hm | hm
      · left; rw [List.foldl_cons, h, hm]
      · right; rw [List.foldl_cons, h, hm]; exact List.mem_cons_self x xs
    · right; exact List.mem_cons_of_mem _ h

theorem calculate_simple_bounding_box_spec (coords : List Point)
    (hne : coords ≠ []) :
    ∃ mn mx : Point,
      calculate_simple_bounding_box coords =
        [(mn.1, mn.2), (mx.1, mn.2), (mx.1, mx.2), (mn.1, mx.2),
          (mn.1, mn.2)] ∧
      (∀ p ∈ coords, mn.1 ≤ p.1 ∧ p.1 ≤ mx.1 ∧ mn.2 ≤ p.2 ∧ p.2 ≤ mx.2) ∧
      (∃ p ∈ coords, p.1 = mn.1) ∧ (∃ p ∈ coords, p.2 = mn.2) ∧
      (∃ p ∈ coords, p.1 = mx.1) ∧ (∃ p ∈ coords, p.2 = mx.2) := by
  obtain ⟨c, rest, rfl⟩ : ∃ c rest, coords = c :: rest := by
    cases coords with
    | nil => exact absurd rfl hne
    | cons c rest => exact ⟨c, rest, rfl⟩
  have hdef : calculate_simple_bounding_box (c :: rest) =
      [(rest.foldl (fun m p => min m p.1) c.1,
          rest.foldl (fun m p => min m p.2) c.2),
        (rest.foldl (fun m p => max m p.1) c.1,
          rest.foldl (fun m p => min m p.2) c.2),
        (rest.foldl (fun m p => max m p.1) c.1,
          rest.foldl (fun m p => max m p.2) c.2),
        (rest.foldl (fun m p => min m p.1) c.1,
          rest.foldl (fun m p => max m p.2) c.2),
        (rest.foldl (fun m p => min m p.1) c.1,
          rest.foldl (fun m p => min m p.2) c.2)] := rfl
  refine ⟨(rest.foldl (fun m p => min m p.1) c.1,
      rest.foldl (fun m p => min m p.2) c.2),
    (rest.foldl (fun m p => max m p.1) c.1,
      rest.foldl (fun m p => max m p.2) c.2), hdef, ?_, ?_, ?_, ?_, ?_⟩
  · intro p hp
    have e1 : rest.foldl (fun m p => min m p.1) c.1
        = (rest.map Prod.fst).foldl min c.1 := (List.foldl_map _ _ _ _).symm
    have e2 : rest.foldl (fun m p => min m p.2) c.2
        = (rest.map Prod.snd).foldl min c.2 := (List.foldl_map _ _ _ _).symm
    have e3 : rest.foldl (fun m p => max m p.1) c.1
        = (rest.map Prod.fst).foldl max c.1 := (List.foldl_map _ _ _ _).symm
    have e4 : rest.foldl (fun m p => max m p.2) c.2
        = (rest.map Prod.snd).foldl max c.2 := (List.foldl_map _ _ _ _).symm
    rcases List.mem_cons.1 hp with rfl | hp'
    · exact ⟨e1 ▸ foldl_min_le_init _ _, e3 ▸ init_le_foldl_max _ _,
        e2 ▸ foldl_min_le_init _ _, e4 ▸ init_le_foldl_max _ _⟩
    · exact ⟨e1 ▸ foldl_min_le_mem _ _ _ (List.mem_map_of_mem _ hp'),
        e3 ▸ mem_le_foldl_max _ _ _ (List.mem_map_of_mem _ hp'),
        e2 ▸ foldl_min_le_mem _ _ _ (List.mem_map_of_mem _ hp'),
        e4 ▸ mem_le_foldl_max _ _ _ (List.mem_map_of_mem _ hp')⟩
  · have e1 : rest.foldl (fun m p => min m p.1) c.1
        = (rest.map Prod.fst).foldl min c.1 := (List.foldl_map _ _ _ _).symm
    rcases foldl_min_attained (rest.map Prod.fst) c.1 with h | h
    · exact ⟨c, List.mem_cons_self c rest, by rw [e1, h]⟩
    · obtain ⟨p, hp, hpv⟩ := List.mem_map.1 h
      exact ⟨p, List.mem_cons_of_mem _ hp, by rw [e1, ← hpv]⟩
  · have e2 : rest.foldl (fun m p => min m p.2) c.2
        = (rest.map Prod.snd).foldl min c.2 := (List.foldl_map _ _ _ _).symm
    rcases foldl_min_attained (rest.map Prod.snd) c.2 with h | h
    · exact ⟨c, List.mem_cons_self c rest, by rw [e2, h]⟩
    · obtain ⟨p, hp, hpv⟩ := List.mem_map.1 h
      exact ⟨p, List.mem_cons_of_mem _ hp, by rw [e2, ← hpv]⟩
  · have e3 : rest.foldl (fun m p => max m p.1) c.1
        = (rest.map Prod.fst).foldl max c.1 := (List.foldl_map _ _ _ _).symm
    rcases foldl_max_attained (rest.map Prod.fst) c.1 with h | h
    · exact ⟨c, List.mem_cons_self c rest, by rw [e3, h]⟩
    · obtain ⟨p, hp, hpv⟩ := List.mem_map.1 h
      exact ⟨p, List.mem_cons_of_mem _ hp, by rw [e3, ← hpv]⟩
  · have e4 : rest.foldl (fun m p => max m p.2) c.2
        = (rest.map Prod.snd).foldl max c.2 := (List.foldl_map _ _ _ _).symm
    rcases foldl_max_attained (rest.map Prod.snd) c.2 with h | h
    · exact ⟨c, List.mem_cons_self c rest, by rw [e4, h]⟩
    · obtain ⟨p, hp, hpv⟩ := List.mem_map.1 h
      exact ⟨p, List.mem_cons_of_mem _ hp, by rw [e4, ← hpv]⟩

/-- C3: for a Polygon or MultiPolygon from which at least 3 coordinates
are collected across all rings, simplify_to_rectangle returns a Polygon
with exactly one ring of exactly 5 coordinates: the axis-aligned
bounding-box corners bottom-left, bottom-right, top-right, top-left and
the closing bottom-left, where the corner components are the attained
minima and maxima of the collected coordinates, so the first coordinate
equals the last and every collected coordinate lies inclusively within
the box. -/
theorem simplify_to_rectangle_spec (g : Geometry)
    (hpoly : g.typeName = "Polygon" ∨ g.typeName = "MultiPolygon")
    (h3 : 3 ≤ (collect_polygon_coords g).length) :
    ∃ mn mx : Point,
      simplify_to_rectangle g = .polygon
        [[(mn.1, mn.2), (mx.1, mn.2), (mx.1, mx.2), (mn.1, mx.2),
          (mn.1, mn.2)]] ∧
      (∀ p ∈ collect_polygon_coords g,
        mn.1 ≤ p.1 ∧ p.1 ≤ mx.1 ∧ mn.2 ≤ p.2 ∧ p.2 ≤ mx.2) ∧
      (∃ p ∈ collect_polygon_coords g, p.1 = mn.1) ∧
      (∃ p ∈ collect_polygon_coords g, p.2 = mn.2) ∧
      (∃ p ∈ collect_polygon_coords g, p.1 = mx.1) ∧
      (∃ p ∈ collect_polygon_coords g, p.2 = mx.2) := by
  have hne : collect_polygon_coords g ≠ [] := by
    intro hcon
    rw [hcon] at h3
    simp at h3
  obtain ⟨mn, mx, hcs, hcont, ha1, ha2, ha3, ha4⟩ :=
    calculate_simple_bounding_box_spec (collect_polygon_coords g) hne
  refine ⟨mn, mx, ?_, hcont, ha1, ha2, ha3, ha4⟩
  cases g with
  | point c => simp [Geometry.typeName] at hpoly
  | lineString cs => simp [Geometry.typeName] at hpoly
  | multiPoint cs => simp [Geometry.typeName] at hpoly
  | multiLineString ls => simp [Geometry.typeName] at hpoly
  | polygon rings =>
    have hrne : ¬ rings.isEmpty = true := by
      intro hcon
      rw [List.isEmpty_iff] at hcon
      subst hcon
      simp [collect_polygon_coords] at hne
    rw [show simplify_to_rectangle (.polygon rings)
        = if rings.isEmpty then Geometry.polygon rings
          else if (collect_polygon_coords (.polygon rings)).length < 3
          then Geometry.polygon rings
          else .polygon [calculate_simple_bounding_box
            (collect_polygon_coords (.polygon rings))] from rfl,
      if_neg hrne, if_neg (by omega), hcs]
  | multiPolygon polys =>
    have hrne : ¬ polys.isEmpty = true := by
      intro hcon
      rw [List.isEmpty_iff] at hcon
      subst hcon
      simp [collect_polygon_coords] at hne
    rw [show simplify_to_rectangle (.multiPolygon polys)
        = if polys.isEmpty then Geometry.multiPolygon polys
          else if (collect_polygon_coords (.multiPolygon polys)).length < 3
          then Geometry.multiPolygon polys
          else .polygon [calculate_simple_bounding_box
            (collect_polygon_coords (.multiPolygon polys))] from rfl,
      if_neg hrne, if_neg (by omega), hcs]

/-- Witness for C3 at the already-axis-aligned rectangle scenario of the
spec. -/
theorem simplify_to_rectangle_spec_witness :
    ((Geometry.polygon [[(0, 0), (2, 0), (2, 3), (0, 3), (0, 0)]]).typeName
        = "Polygon" ∨
      (Geometry.polygon [[(0, 0), (2, 0), (2, 3), (0, 3), (0, 0)]]).typeName
        = "MultiPolygon") ∧
    3 ≤ (collect_polygon_coords
      (.polygon [[(0, 0), (2, 0), (2, 3), (0, 3), (0, 0)]])).length ∧
    ∃ mn mx : Point,
      simplify_to_rectangle
          (.polygon [[(0, 0), (2, 0), (2, 3), (0, 3), (0, 0)]])
        = .polygon [[(mn.1, mn.2), (mx.1, mn.2), (mx.1, mx.2), (mn.1, mx.2),
          (mn.1, mn.2)]] ∧
      (∀ p ∈ collect_polygon_coords
          (.polygon [[(0, 0), (2, 0), (2, 3), (0, 3), (0, 0)]]),
        mn.1 ≤ p.1 ∧ p.1 ≤ mx.1 ∧ mn.2 ≤ p.2 ∧ p.2 ≤ mx.2) ∧
      (∃ p ∈ collect_polygon_coords
          (.polygon [[(0, 0), (2, 0), (2, 3), (0, 3), (0, 0)]]), p.1 = mn.1) ∧
      (∃ p ∈ collect_polygon_coords
          (.polygon [[(0, 0), (2, 0), (2, 3), (0, 3), (0, 0)]]), p.2 = mn.2) ∧
      (∃ p ∈ collect_polygon_coords
          (.polygon [[(0, 0), (2, 0), (2, 3), (0, 3), (0, 0)]]), p.1 = mx.1) ∧
      (∃ p ∈ collect_polygon_coords
          (.polygon [[(0, 0), (2, 0), (2, 3), (0, 3), (0, 0)]]),
        p.2 = mx.2) :=
  ⟨Or.inl rfl, by simp [collect_polygon_coords],
    simplify_to_rectangle_spec _ (Or.inl rfl)
      (by simp [collect_polygon_coords])⟩

/-! ## Rounding and truncation lemmas -/

theorem round_half_even_intCast (k : ℤ) : round_half_even (k : ℚ) = k := by
  unfold round_half_even
  rw [Int.fract_intCast, if_pos (by norm_num), Int.floor_intCast]

theorem round5_intCast (k : ℤ) : round5 (k : ℚ) = k := by
  unfold round5
  have h : (k : ℚ) * 100000 = ((k * 100000 : ℤ) : ℚ) := by push_cast; ring
  rw [h, round_half_even_intCast]
  push_cast
  field_simp

theorem round5_idem (q : ℚ) : round5 (round5 q) = round5 q := by
  unfold round5
  rw [div_mul_cancel₀ _ (by norm_num : (100000 : ℚ) ≠ 0),
    round_half_even_intCast]

theorem one_le_sizeCoordList (l : List CoordData) : 1 ≤ sizeCoordList l := by
  cases l with
  | nil => norm_num [sizeCoordList]
  | cons x rest => cases x <;> (simp only [sizeCoordList]; omega)

theorem truncate_wf_aux :
    ∀ (n : ℕ) (l : List CoordData), sizeCoordList l ≤ n →
      (wf_coord_array l = true →
        truncate_coord_array l = some (round_coord_tree l)) ∧
      (wf_coord_elems l = true →
        truncate_coord_each l = some (round_coord_tree l)) := by
  intro n
  induction n with
  | zero =>
    intro l hlen
    have := one_le_sizeCoordList l
    omega
  | succ n ih =>
    intro l hlen
    match l with
    | [] =>
      constructor
      · intro h
        simp [wf_coord_array] at h
      · intro _
        simp [truncate_coord_each, round_coord_tree]
    | .num q0 :: rest =>
      constructor
      · intro h
        cases rest with
        | nil => simp [wf_coord_array] at h
        | cons x rest2 =>
          cases x with
          | arr ys => simp [wf_coord_array] at h
          | num q1 =>
            cases rest2 with
            | nil => simp [truncate_coord_array, round_coord_tree]
            | cons z rest3 => simp [wf_coord_array] at h
      · intro h
        simp [wf_coord_elems] at h
    | .arr ys :: rest =>
      have hys : sizeCoordList ys ≤ n := by
        have h1 := one_le_sizeCoordList rest
        simp only [sizeCoordList] at hlen
        omega
      have hrest : sizeCoordList rest ≤ n := by
        have h1 := one_le_sizeCoordList ys
        simp only [sizeCoordList] at hlen
        omega
      obtain ⟨ihys, -⟩ := ih ys hys
      obtain ⟨-, ihrest⟩ := ih rest hrest
      constructor
      · intro h
        rw [wf_coord_array, Bool.and_eq_true] at h
        simp [truncate_coord_array, ihys h.1, ihrest h.2, round_coord_tree]
      · intro h
        rw [wf_coord_elems, Bool.and_eq_true] at h
        simp [truncate_coord_each, ihys h.1, ihrest h.2, round_coord_tree]

theorem coord_skeleton_round_aux :
    ∀ (n : ℕ) (l : List CoordData), sizeCoordList l ≤ n →
      coord_skeleton (round_coord_tree l) = coord_skeleton l := by
  intro n
  induction n with
  | zero =>
    intro l hlen
    have := one_le_sizeCoordList l
    omega
  | succ n ih =>
    intro l hlen
    match l with
    | [] => simp [round_coord_tree]
    | .num q :: rest =>
      have hrest : sizeCoordList rest ≤ n := by
        simp only [sizeCoordList] at hlen
        omega
      simp [round_coord_tree, coord_skeleton, ih rest hrest]
    | .arr ys :: rest =>
      have hys : sizeCoordList ys ≤ n := by
        have h1 := one_le_sizeCoordList rest
        simp only [sizeCoordList] at hlen
        omega
      have hrest : sizeCoordList rest ≤ n := by
        have h1 := one_le_sizeCoordList ys
        simp only [sizeCoordList] at hlen
        omega
      simp [round_coord_tree, coord_skeleton, ih ys hys, ih rest hrest]

theorem truncate_coord_array_ne_nil (l r : List CoordData)
    (h : truncate_coord_array l = some r) : r ≠ [] := by
  match l with
  | [] => simp [truncate_coord_array] at h
  | .num q0 :: rest =>
    cases rest with
    | nil => simp [truncate_coord_array] at h
    | cons x rest2 =>
      cases x with
      | arr ys => simp [truncate_coord_array] at h
      | num q1 =>
        rw [truncate_coord_array] at h
        simp at h
        rw [← h]
        simp
  | .arr ys :: rest =>
    rw [truncate_coord_array] at h
    simp [Option.bind_eq_some] at h
    obtain ⟨y, hy, r', hr', rfl⟩ := h
    simp

theorem truncate_idem_aux :
    ∀ (n : ℕ) (l r : List CoordData), sizeCoordList l ≤ n →
      (truncate_coord_array l = some r →
        truncate_coord_array r = some r) ∧
      (truncate_coord_each l = some r →
        truncate_coord_each r = some r) := by
  intro n
  induction n with
  | zero =>
    intro l r hlen
    have := one_le_sizeCoordList l
    omega
  | succ n ih =>
    intro l r hlen
    match l with
    | [] =>
      constructor
      · intro h
        simp [truncate_coord_array] at h
      · intro h
        simp [truncate_coord_each] at h
        subst h
        simp [truncate_coord_each]
    | .num q0 :: rest =>
      constructor
      · intro h
        cases rest with
        | nil => simp [truncate_coord_array] at h
        | cons x rest2 =>
          cases x with
          | arr ys => simp [truncate_coord_array] at h
          | num q1 =>
            rw [truncate_coord_array] at h
            simp at h
            rw [← h]
            simp [truncate_coord_array, round5_idem]
      · intro h
        simp [truncate_coord_each] at h
    | .arr ys :: rest =>
      have hys : sizeCoordList ys ≤ n := by
        have h1 := one_le_sizeCoordList rest
        simp only [sizeCoordList] at hlen
        omega
      have hrest : sizeCoordList rest ≤ n := by
        have h1 := one_le_sizeCoordList ys
        simp only [sizeCoordList] at hlen
        omega
      have hcommon : ∀ r,
          (do
            let y ← truncate_coord_array ys
            let r' ← truncate_coord_each rest
            pure (CoordData.arr y :: r')) = some r →
          truncate_coord_array r = some r ∧
            truncate_coord_each r = some r := by
        intro r h
        simp [Option.bind_eq_some] at h
        obtain ⟨y, hy, r', hr', rfl⟩ := h
        have hy' := (ih ys y hys).1 hy
        have hr'' := (ih rest r' hrest).2 hr'
        constructor
        · rw [truncate_coord_array]
          simp [hy', hr'']
        · rw [truncate_coord_each]
          simp [hy', hr'']
      constructor
      · intro h
        rw [truncate_coord_array] at h
        exact (hcommon r h).1
      · intro h
        rw [truncate_coord_each] at h
        exact (hcommon r h).2

/-- C4 counterexample: a geometry object holding one empty nested
coordinate array (an empty ring) is NOT passed through unchanged:
truncation raises (modelled as none), because truncate_coord_array
subscripts the empty nested array. -/
theorem truncate_coordinates_nested_empty_raises :
    truncate_coordinates ⟨"Polygon", [.arr []]⟩ = none ∧
      truncate_coordinates ⟨"Polygon", [.arr []]⟩
        ≠ some ⟨"Polygon", [.arr []]⟩ := by
  have h : truncate_coordinates ⟨"Polygon", [.arr []]⟩ = none := by
    simp [truncate_coordinates, truncate_coord_array, truncate_coord_each]
  exact ⟨h, by rw [h]; simp⟩

/-- C4 (amended): truncation of a geometry whose nested coordinate
structure is well formed (every array nonempty, every leaf exactly a pair
of numbers) succeeds and returns the structure with every leaf component
rounded to 5 decimal places and the array skeleton (nesting depth and
element count at every level) unchanged; a TOP-LEVEL empty coordinate
array is passed through unchanged as a no-op.  A nested empty array, by
contrast, raises (see the counterexample). -/
theorem truncate_coordinates_wf_spec (g : GeometryObj) :
    (g.coordinates = [] → truncate_coordinates g = some g) ∧
    (wf_coord_array g.coordinates = true →
      truncate_coordinates g
          = some ⟨g.type, round_coord_tree g.coordinates⟩ ∧
        coord_skeleton (round_coord_tree g.coordinates)
          = coord_skeleton g.coordinates) := by
  constructor
  · intro h
    unfold truncate_coordinates
    rw [if_pos (by simp [h])]
  · intro h
    have htr := (truncate_wf_aux (sizeCoordList g.coordinates)
      g.coordinates le_rfl).1 h
    have hne : g.coordinates ≠ [] := by
      intro hcon
      rw [hcon] at h
      simp [wf_coord_array] at h
    refine ⟨?_, coord_skeleton_round_aux (sizeCoordList g.coordinates)
      g.coordinates le_rfl⟩
    unfold truncate_coordinates
    rw [if_neg (by simpa [List.isEmpty_iff] using hne), htr]
    rfl

/-- Witness for C4 (amended) at a concrete well-formed two-leaf line and
at a concrete empty-coordinates object. -/
theorem truncate_coordinates_wf_spec_witness :
    ((⟨"LineString", []⟩ : GeometryObj).coordinates = [] ∧
      truncate_coordinates ⟨"LineString", []⟩ = some ⟨"LineString", []⟩) ∧
    (wf_coord_array
        ([.arr [.num 1, .num 2], .arr [.num 3, .num 4]] : List CoordData)
        = true ∧
      truncate_coordinates
          ⟨"LineString", [.arr [.num 1, .num 2], .arr [.num 3, .num 4]]⟩
        = some ⟨"LineString", round_coord_tree
            [.arr [.num 1, .num 2], .arr [.num 3, .num 4]]⟩ ∧
      coord_skeleton (round_coord_tree
          ([.arr [.num 1, .num 2], .arr [.num 3, .num 4]] : List CoordData))
        = coord_skeleton
            ([.arr [.num 1, .num 2], .arr [.num 3, .num 4]] :
              List CoordData)) := by
  have hwf : wf_coord_array
      ([.arr [.num 1, .num 2], .arr [.num 3, .num 4]] : List CoordData)
      = true := by
    simp [wf_coord_array, wf_coord_elems]
  constructor
  · exact ⟨rfl, (truncate_coordinates_wf_spec ⟨"LineString", []⟩).1 rfl⟩
  · exact ⟨hwf, (truncate_coordinates_wf_spec
      ⟨"LineString", [.arr [.num 1, .num 2], .arr [.num 3, .num 4]]⟩).2 hwf⟩

/-- C6: truncation is idempotent on every geometry on which it is defined
(does not raise): a second application of truncate_coordinates to a
successful result returns that result unchanged. -/
theorem truncate_coordinates_idempotent (g g' : GeometryObj)
    (h : truncate_coordinates g = some g') :
    truncate_coordinates g' = some g' := by
  unfold truncate_coordinates at h ⊢
  by_cases hg : g.coordinates.isEmpty
  · rw [if_pos hg] at h
    obtain rfl : g = g' := by
      simpa using h
    rw [if_pos hg]
  · rw [if_neg hg] at h
    obtain ⟨cs, hcs, rfl⟩ : ∃ cs, truncate_coord_array g.coordinates = some cs
        ∧ g' = { g with coordinates := cs } := by
      cases htca : truncate_coord_array g.coordinates with
      | none => rw [htca] at h; simp at h
      | some cs =>
        rw [htca] at h
        simp at h
        exact ⟨cs, rfl, h.symm⟩
    have hne : cs ≠ [] := truncate_coord_array_ne_nil _ _ hcs
    rw [if_neg (by simpa [List.isEmpty_iff] using hne)]
    have hidem := (truncate_idem_aux (sizeCoordList g.coordinates)
      g.coordinates cs le_rfl).1 hcs
    simp only
    rw [hidem]
    rfl

/-- Witness for C6 at a concrete line whose integer coordinates are fixed
by rounding, so truncation maps it to itself and does so again. -/
theorem truncate_coordinates_idempotent_witness :
    truncate_coordinates
        ⟨"LineString", [.arr [.num 1, .num 2], .arr [.num 3, .num 4]]⟩
      = some ⟨"LineString", [.arr [.num 1, .num 2], .arr [.num 3, .num 4]]⟩ ∧
    truncate_coordinates
        ⟨"LineString", [.arr [.num 1, .num 2], .arr [.num 3, .num 4]]⟩
      = some ⟨"LineString", [.arr [.num 1, .num 2], .arr [.num 3, .num 4]]⟩ := by
  have h1 : round5 1 = 1 := by simpa using round5_intCast 1
  have h2 : round5 2 = 2 := by simpa using round5_intCast 2
  have h3 : round5 3 = 3 := by simpa using round5_intCast 3
  have h4 : round5 4 = 4 := by simpa using round5_intCast 4
  have h : truncate_coordinates
      ⟨"LineString", [.arr [.num 1, .num 2], .arr [.num 3, .num 4]]⟩
      = some ⟨"LineString",
          [.arr [.num 1, .num 2], .arr [.num 3, .num 4]]⟩ := by
    simp [truncate_coordinates, truncate_coord_array, truncate_coord_each,
      h1, h2, h3, h4]
  exact ⟨h, truncate_coordinates_idempotent _ _ h⟩

/-- C10: a leaf coordinate array with more than two numeric components
(such as lon, lat, altitude) is truncated to exactly its first two
components, each rounded to 5 decimal places; every further component is
silently discarded rather than rejected or preserved. -/
theorem truncate_extra_components (q0 q1 q2 : ℚ) (qs : List ℚ) :
    truncate_coord_array
        (.num q0 :: .num q1 :: .num q2 :: qs.map .num)
      = some [.num (round5 q0), .num (round5 q1)] ∧
    (truncate_coord_array
        (.num q0 :: .num q1 :: .num q2 :: qs.map .num)).map List.length
      = some 2 := by
  constructor <;> simp [truncate_coord_array]


/-! ## Correspondence of the typed truncation with the untyped source
model -/

theorem tca_arr_head (ys rest : List CoordData) :
    truncate_coord_array (.arr ys :: rest)
      = truncate_coord_each (.arr ys :: rest) := by
  rw [truncate_coord_array, truncate_coord_each]

theorem truncate_each_points (cs : List Point) :
    truncate_coord_each (cs.map pointToCoordData)
      = some ((cs.map round_point).map pointToCoordData) := by
  induction cs with
  | nil => simp [truncate_coord_each]
  | cons p rest ih =>
    simp [pointToCoordData, truncate_coord_each, truncate_coord_array, ih,
      round_point]

theorem truncate_array_points (p : Point) (rest : List Point) :
    truncate_coord_array ((p :: rest).map pointToCoordData)
      = some (((p :: rest).map round_point).map pointToCoordData) := by
  have hcons : (p :: rest).map pointToCoordData
      = .arr [.num p.1, .num p.2] :: rest.map pointToCoordData := rfl
  rw [hcons, tca_arr_head, ← hcons]
  exact truncate_each_points (p :: rest)

theorem truncate_each_rings (rings : List (List Point)) :
    truncate_coord_each (rings.map fun ring =>
        CoordData.arr (ring.map pointToCoordData))
      = if rings.any List.isEmpty then none
        else some ((rings.map (List.map round_point)).map fun ring =>
          CoordData.arr (ring.map pointToCoordData)) := by
  induction rings with
  | nil => simp [truncate_coord_each]
  | cons ring rest ih =>
    cases ring with
    | nil => simp [truncate_coord_each, truncate_coord_array]
    | cons p ps =>
      have hcons : ((p :: ps) :: rest).map (fun r =>
            CoordData.arr (r.map pointToCoordData))
          = .arr ((p :: ps).map pointToCoordData) :: rest.map (fun r =>
              CoordData.arr (r.map pointToCoordData)) := rfl
      rw [hcons]
      simp only [truncate_coord_each]
      rw [truncate_array_points p ps, ih]
      by_cases h : rest.any List.isEmpty
      · simp [h]
      · simp [h]

theorem truncate_array_rings (ring : List Point)
    (rest : List (List Point)) :
    truncate_coord_array ((ring :: rest).map fun r =>
        CoordData.arr (r.map pointToCoordData))
      = if (ring :: rest).any List.isEmpty then none
        else some (((ring :: rest).map (List.map round_point)).map fun r =>
          CoordData.arr (r.map pointToCoordData)) := by
  have hcons : (ring :: rest).map (fun r =>
        CoordData.arr (r.map pointToCoordData))
      = .arr (ring.map pointToCoordData) :: rest.map (fun r =>
          CoordData.arr (r.map pointToCoordData)) := rfl
  rw [hcons, tca_arr_head, ← hcons]
  exact truncate_each_rings (ring :: rest)

theorem truncate_each_polygons (ps : List (List (List Point))) :
    truncate_coord_each (ps.map fun polygon =>
        CoordData.arr (polygon.map fun ring =>
          CoordData.arr (ring.map pointToCoordData)))
      = if ps.any (fun polygon => polygon.isEmpty || polygon.any List.isEmpty)
        then none
        else some ((ps.map (List.map (List.map round_point))).map
          fun polygon => CoordData.arr (polygon.map fun ring =>
            CoordData.arr (ring.map pointToCoordData))) := by
  induction ps with
  | nil => simp [truncate_coord_each]
  | cons polygon rest ih =>
    cases polygon with
    | nil => simp [truncate_coord_each, truncate_coord_array]
    | cons ring rings =>
      have hcons : ((ring :: rings) :: rest).map (fun poly =>
            CoordData.arr (poly.map fun r =>
              CoordData.arr (r.map pointToCoordData)))
          = .arr ((ring :: rings).map fun r =>
              CoordData.arr (r.map pointToCoordData)) ::
            rest.map (fun poly => CoordData.arr (poly.map fun r =>
              CoordData.arr (r.map pointToCoordData))) := rfl
      rw [hcons]
      simp only [truncate_coord_each]
      rw [truncate_array_rings ring rings, ih]
      by_cases h1 : (ring :: rings).any List.isEmpty
      · simp [h1]
      · by_cases h2 : rest.any
            (fun polygon => polygon.isEmpty || polygon.any List.isEmpty)
        · simp [h1, h2]
        · simp [h1, h2]

/-- Faithfulness of truncate_geometry: erasing a typed geometry to the
untyped run-time coordinates value and applying the source-traced
truncate_coordinates agrees with truncate_geometry followed by the same
erasure, on every geometry and unconditionally — in particular the
raising (none) cases coincide. -/
theorem truncate_geometry_correspondence (g : Geometry) :
    truncate_coordinates ⟨g.typeName, g.toCoordData⟩
      = (truncate_geometry g).map fun g' =>
          (⟨g.typeName, g'.toCoordData⟩ : GeometryObj) := by
  cases g with
  | point c =>
    simp [truncate_coordinates, Geometry.toCoordData, truncate_geometry,
      truncate_coord_array, round_point]
  | lineString cs =>
    cases cs with
    | nil =>
      simp [truncate_coordinates, Geometry.toCoordData, truncate_geometry]
    | cons p rest =>
      unfold truncate_coordinates
      rw [if_neg (by simp [Geometry.toCoordData, pointToCoordData])]
      show (truncate_coord_array ((p :: rest).map pointToCoordData)).map _ = _
      rw [truncate_array_points p rest]
      simp [truncate_geometry, Geometry.toCoordData]
  | multiPoint cs =>
    cases cs with
    | nil =>
      simp [truncate_coordinates, Geometry.toCoordData, truncate_geometry]
    | cons p rest =>
      unfold truncate_coordinates
      rw [if_neg (by simp [Geometry.toCoordData, pointToCoordData])]
      show (truncate_coord_array ((p :: rest).map pointToCoordData)).map _ = _
      rw [truncate_array_points p rest]
      simp [truncate_geometry, Geometry.toCoordData]
  | polygon rings =>
    cases rings with
    | nil =>
      simp [truncate_coordinates, Geometry.toCoordData, truncate_geometry]
    | cons ring rest =>
      unfold truncate_coordinates
      rw [if_neg (by simp [Geometry.toCoordData])]
      show (truncate_coord_array ((ring :: rest).map fun r =>
        CoordData.arr (r.map pointToCoordData))).map _ = _
      rw [truncate_array_rings ring rest]
      by_cases h : (ring :: rest).any List.isEmpty
      · simp [truncate_geometry, h]
      · simp [truncate_geometry, h, Geometry.toCoordData]
  | multiLineString ls =>
    cases ls with
    | nil =>
      simp [truncate_coordinates, Geometry.toCoordData, truncate_geometry]
    | cons line rest =>
      unfold truncate_coordinates
      rw [if_neg (by simp [Geometry.toCoordData])]
      show (truncate_coord_array ((line :: rest).map fun r =>
        CoordData.arr (r.map pointToCoordData))).map _ = _
      rw [truncate_array_rings line rest]
      by_cases h : (line :: rest).any List.isEmpty
      · simp [truncate_geometry, h]
      · simp [truncate_geometry, h, Geometry.toCoordData]
  | multiPolygon ps =>
    cases ps with
    | nil =>
      simp [truncate_coordinates, Geometry.toCoordData, truncate_geometry]
    | cons polygon rest =>
      unfold truncate_coordinates
      rw [if_neg (by simp [Geometry.toCoordData])]
      show (truncate_coord_array ((polygon :: rest).map fun poly =>
        CoordData.arr (poly.map fun ring =>
          CoordData.arr (ring.map pointToCoordData)))).map _ = _
      have hcons : (polygon :: rest).map (fun poly =>
            CoordData.arr (poly.map fun ring =>
              CoordData.arr (ring.map pointToCoordData)))
          = .arr (polygon.map fun ring =>
              CoordData.arr (ring.map pointToCoordData)) ::
            rest.map (fun poly => CoordData.arr (poly.map fun ring =>
              CoordData.arr (ring.map pointToCoordData))) := rfl
      rw [hcons, tca_arr_head, ← hcons, truncate_each_polygons (polygon :: rest)]
      by_cases h : (polygon :: rest).any
          (fun poly => poly.isEmpty || poly.any List.isEmpty)
      · simp [truncate_geometry, h]
      · simp [truncate_geometry, h, Geometry.toCoordData]

/-! ## Preprocessing pipeline lemmas -/

theorem preprocess_features_eq_mapM (accepted : List String)
    (process : Feature → Option Feature) (l : List Feature) :
    preprocess_features accepted process l
      = (l.filter fun f => decide (f.geometry.typeName ∈ accepted)).mapM
        process := by
  induction l with
  | nil =>
    rw [List.filter_nil, List.mapM_nil]
    rfl
  | cons f rest ih =>
    by_cases hf : f.geometry.typeName ∈ accepted
    · rw [List.filter_cons, if_pos (by simpa using hf), List.mapM_cons]
      simp only [preprocess_features]
      rw [if_pos hf, ih]
    · rw [List.filter_cons, if_neg (by simpa using hf)]
      simp only [preprocess_features]
      rw [if_neg hf, ih]

theorem mapM_option_length {α β : Type} (f : α → Option β) :
    ∀ (l : List α) (l' : List β), l.mapM f = some l' →
      l'.length = l.length := by
  intro l
  induction l with
  | nil =>
    intro l' h
    rw [List.mapM_nil] at h
    simp at h
    subst h
    rfl
  | cons x xs ih =>
    intro l' h
    rw [List.mapM_cons] at h
    cases hfx : f x with
    | none => rw [hfx] at h; simp at h
    | some y =>
      rw [hfx] at h
      cases hm : xs.mapM f with
      | none => rw [hm] at h; simp at h
      | some ys =>
        rw [hm] at h
        simp at h
        subst h
        simp [ih ys hm]

theorem mapM_option_map_eq {α β γ : Type} (f : α → Option β) (g : β → γ)
    (h : α → γ) (hfg : ∀ a b, f a = some b → g b = h a) :
    ∀ (l : List α) (l' : List β), l.mapM f = some l' →
      l'.map g = l.map h := by
  intro l
  induction l with
  | nil =>
    intro l' hl
    rw [List.mapM_nil] at hl
    simp at hl
    subst hl
    rfl
  | cons x xs ih =>
    intro l' hl
    rw [List.mapM_cons] at hl
    cases hfx : f x with
    | none => rw [hfx] at hl; simp at hl
    | some y =>
      rw [hfx] at hl
      cases hm : xs.mapM f with
      | none => rw [hm] at hl; simp at hl
      | some ys =>
        rw [hm] at hl
        simp at hl
        subst hl
        simp [hfg x y hfx, ih ys hm]

theorem process_feature_consolidate_id (cfg : LayerConfig) (f pf : Feature)
    (h : process_feature_consolidate cfg f = some pf) : pf.id = f.id := by
  unfold process_feature_consolidate at h
  cases ht : truncate_geometry (select_simplified_geometry cfg f.geometry)
    with
  | none => rw [ht] at h; simp at h
  | some tg =>
    rw [ht] at h
    simp at h
    rw [← h]

theorem process_feature_retain_id (cfg : LayerConfig) (f pf : Feature)
    (h : process_feature_retain cfg f = some pf) : pf.id = f.id := by
  unfold process_feature_retain at h
  cases ht : truncate_geometry (select_simplified_geometry cfg f.geometry)
    with
  | none => rw [ht] at h; simp at h
  | some tg =>
    rw [ht] at h
    simp at h
    rw [← h]

/-- C8 counterexample: a FeatureCollection whose single feature has an
accepted geometry type (Polygon) but holds one empty ring makes the whole
preprocessing raise (none): no output features array is produced at all,
refuting the unconditional output-shape claim. -/
theorem preprocess_geojson_empty_ring_raises :
    preprocess_geojson
        ⟨"FeatureCollection", [⟨.polygon [[]], none, []⟩]⟩
        ⟨"none", 0, false⟩
      = none := by
  simp [preprocess_geojson, preprocess_features, process_feature_consolidate,
    select_simplified_geometry, truncate_geometry, accepted_types_consolidate,
    Geometry.typeName]

/-- C8 (amended): preprocessing returns an output exactly when every
accepted-type feature processes without a raise, and then the output
features array consists of exactly the in-order transforms of the input
features whose geometry type is in the accepted set (no reordering, no
deduplication); a feature with any other geometry type is dropped
silently, with the feature count decreasing to the count of accepted
features; if any accepted feature raises during truncation (empty nested
ring), the whole run produces no output. -/
theorem preprocess_geojson_filter_order (data : FeatureCollection)
    (cfg : LayerConfig) :
    (preprocess_geojson data cfg).map FeatureCollection.features
        = (data.features.filter fun f =>
            decide (f.geometry.typeName ∈ accepted_types_consolidate)).mapM
          (process_feature_consolidate cfg) ∧
      ∀ out, preprocess_geojson data cfg = some out →
        out.features.length
            = (data.features.filter fun f =>
                decide (f.geometry.typeName ∈
                  accepted_types_consolidate)).length ∧
          out.features.length ≤ data.features.length := by
  have heq := preprocess_features_eq_mapM accepted_types_consolidate
    (process_feature_consolidate cfg) data.features
  constructor
  · unfold preprocess_geojson
    rw [heq]
    cases hm : (data.features.filter fun f =>
        decide (f.geometry.typeName ∈ accepted_types_consolidate)).mapM
        (process_feature_consolidate cfg) with
    | none => simp
    | some fs => simp
  · intro out hout
    unfold preprocess_geojson at hout
    rw [heq] at hout
    cases hm : (data.features.filter fun f =>
        decide (f.geometry.typeName ∈ accepted_types_consolidate)).mapM
        (process_feature_consolidate cfg) with
    | none => rw [hm] at hout; simp at hout
    | some fs =>
      rw [hm] at hout
      simp at hout
      have hlen := mapM_option_length _ _ _ hm
      subst hout
      refine ⟨hlen, ?_⟩
      rw [hlen]
      exact List.length_filter_le _ _

/-- Witness for C8 (amended) at the Point-drop scenario of the spec: a
Point feature is dropped, a LineString feature survives, and the run
succeeds with feature count 1 of 2. -/
theorem preprocess_geojson_filter_order_witness :
    preprocess_geojson
        ⟨"FeatureCollection",
          [⟨.point (0, 0), none, []⟩,
            ⟨.lineString [(1, 2), (3, 4)], none, []⟩]⟩
        ⟨"none", 0, false⟩
      = some ⟨"FeatureCollection",
          [⟨.lineString [(1, 2), (3, 4)], none, []⟩]⟩ ∧
    ((⟨"FeatureCollection",
          [⟨.lineString [(1, 2), (3, 4)], none, []⟩]⟩ :
        FeatureCollection).features.length
        = ((⟨"FeatureCollection",
            [⟨.point (0, 0), none, []⟩,
              ⟨.lineString [(1, 2), (3, 4)], none, []⟩]⟩ :
          FeatureCollection).features.filter fun f =>
            decide (f.geometry.typeName ∈ accepted_types_consolidate)).length ∧
      (⟨"FeatureCollection",
          [⟨.lineString [(1, 2), (3, 4)], none, []⟩]⟩ :
        FeatureCollection).features.length
        ≤ (⟨"FeatureCollection",
            [⟨.point (0, 0), none, []⟩,
              ⟨.lineString [(1, 2), (3, 4)], none, []⟩]⟩ :
          FeatureCollection).features.length) := by
  have h1 : round5 1 = 1 := by simpa using round5_intCast 1
  have h2 : round5 2 = 2 := by simpa using round5_intCast 2
  have h3 : round5 3 = 3 := by simpa using round5_intCast 3
  have h4 : round5 4 = 4 := by simpa using round5_intCast 4
  have h : preprocess_geojson
      ⟨"FeatureCollection",
        [⟨.point (0, 0), none, []⟩,
          ⟨.lineString [(1, 2), (3, 4)], none, []⟩]⟩
      ⟨"none", 0, false⟩
      = some ⟨"FeatureCollection",
          [⟨.lineString [(1, 2), (3, 4)], none, []⟩]⟩ := by
    simp [preprocess_geojson, preprocess_features,
      process_feature_consolidate, select_simplified_geometry,
      truncate_geometry, accepted_types_consolidate, Geometry.typeName,
      round_point, h1, h2, h3, h4]
  exact ⟨h, (preprocess_geojson_filter_order _ _).2 _ h⟩

/-- C9 counterexample: an input feature carrying an id whose geometry
holds an empty ring yields NO output feature in either property-shaping
variant: the truncation raises, so there is no corresponding output
feature carrying the id. -/
theorem process_feature_empty_ring_no_output :
    process_feature_consolidate ⟨"none", 0, false⟩
        ⟨.polygon [[]], some "feature-1", []⟩ = none ∧
      process_feature_retain ⟨"none", 0, false⟩
        ⟨.polygon [[]], some "feature-1", []⟩ = none := by
  constructor <;>
    simp [process_feature_consolidate, process_feature_retain,
      select_simplified_geometry, truncate_geometry]

/-- C9 (amended): in both property-shaping variants, whenever processing
yields an output feature for an input feature (no raise), the output
carries exactly the input id field (so an absent id stays absent); over a
whole collection, whenever preprocessing succeeds the ids of the output
features are exactly the ids of the accepted input features, in order.
When truncation raises, no output feature exists at all (see the
counterexample). -/
theorem preprocess_preserves_feature_id (cfg : LayerConfig) (f : Feature)
    (data : FeatureCollection) :
    (∀ pf, process_feature_consolidate cfg f = some pf → pf.id = f.id) ∧
      (∀ pf, process_feature_retain cfg f = some pf → pf.id = f.id) ∧
      (∀ out, preprocess_geojson data cfg = some out →
        out.features.map Feature.id
          = (data.features.filter fun x =>
              decide (x.geometry.typeName ∈ accepted_types_consolidate)).map
            Feature.id) ∧
      (∀ out, preprocess_geojson_retain data cfg = some out →
        out.features.map Feature.id
          = (data.features.filter fun x =>
              decide (x.geometry.typeName ∈ accepted_types_full)).map
            Feature.id) := by
  refine ⟨fun pf h => process_feature_consolidate_id cfg f pf h,
    fun pf h => process_feature_retain_id cfg f pf h, ?_, ?_⟩
  · intro out hout
    unfold preprocess_geojson at hout
    rw [preprocess_features_eq_mapM] at hout
    cases hm : (data.features.filter fun x =>
        decide (x.geometry.typeName ∈ accepted_types_consolidate)).mapM
        (process_feature_consolidate cfg) with
    | none => rw [hm] at hout; simp at hout
    | some fs =>
      rw [hm] at hout
      simp at hout
      subst hout
      exact mapM_option_map_eq (process_feature_consolidate cfg) Feature.id
        Feature.id (fun a b hb => process_feature_consolidate_id cfg a b hb)
        _ fs hm
  · intro out hout
    unfold preprocess_geojson_retain at hout
    rw [preprocess_features_eq_mapM] at hout
    cases hm : (data.features.filter fun x =>
        decide (x.geometry.typeName ∈ accepted_types_full)).mapM
        (process_feature_retain cfg) with
    | none => rw [hm] at hout; simp at hout
    | some fs =>
      rw [hm] at hout
      simp at hout
      subst hout
      exact mapM_option_map_eq (process_feature_retain cfg) Feature.id
        Feature.id (fun a b hb => process_feature_retain_id cfg a b hb)
        _ fs hm

/-- Witness for C9 (amended): both variants applied to a concrete
id-carrying line feature succeed and carry the id through. -/
theorem preprocess_preserves_feature_id_witness :
    process_feature_consolidate ⟨"none", 0, false⟩
        ⟨.lineString [(1, 2)], some "a", [("k", "v")]⟩
      = some ⟨.lineString [(1, 2)], some "a", []⟩ ∧
      (⟨.lineString [(1, 2)], some "a", ([] : List (String × String))⟩ :
          Feature).id
        = (⟨.lineString [(1, 2)], some "a", [("k", "v")]⟩ : Feature).id ∧
      process_feature_retain ⟨"none", 0, false⟩
          ⟨.lineString [(1, 2)], some "a", [("k", "v")]⟩
        = some ⟨.lineString [(1, 2)], some "a", [("k", "v")]⟩ ∧
      (⟨.lineString [(1, 2)], some "a",
          ([("k", "v")] : List (String × String))⟩ : Feature).id
        = (⟨.lineString [(1, 2)], some "a", [("k", "v")]⟩ : Feature).id := by
  have h1 : round5 1 = 1 := by simpa using round5_intCast 1
  have h2 : round5 2 = 2 := by simpa using round5_intCast 2
  have hc : process_feature_consolidate ⟨"none", 0, false⟩
      ⟨.lineString [(1, 2)], some "a", [("k", "v")]⟩
      = some ⟨.lineString [(1, 2)], some "a", []⟩ := by
    simp [process_feature_consolidate, select_simplified_geometry,
      truncate_geometry, round_point, h1, h2]
  have hr : process_feature_retain ⟨"none", 0, false⟩
      ⟨.lineString [(1, 2)], some "a", [("k", "v")]⟩
      = some ⟨.lineString [(1, 2)], some "a", [("k", "v")]⟩ := by
    simp [process_feature_retain, select_simplified_geometry,
      truncate_geometry, round_point, h1, h2]
  exact ⟨hc,
    (preprocess_preserves_feature_id ⟨"none", 0, false⟩
      ⟨.lineString [(1, 2)], some "a", [("k", "v")]⟩
      ⟨"FeatureCollection", []⟩).1 _ hc,
    hr,
    (preprocess_preserves_feature_id ⟨"none", 0, false⟩
      ⟨.lineString [(1, 2)], some "a", [("k", "v")]⟩
      ⟨"FeatureCollection", []⟩).2.1 _ hr⟩

/-- C7: strategy dispatch follows the exact priority chain: the
noCompression override passes the geometry to truncation unchanged; else
rectangle applies only to Polygon/MultiPolygon; else douglas_peucker
applies only with positive tolerance; in every remaining case, including
an unrecognized strategy tag, a rectangle strategy on a non-polygonal
geometry, and a douglas_peucker strategy with nonpositive tolerance, the
geometry passes through unchanged with no error. -/
theorem select_simplified_geometry_dispatch (cfg : LayerConfig)
    (g : Geometry) (f : Feature) :
    (cfg.noCompression = true → select_simplified_geometry cfg g = g) ∧
      (cfg.noCompression = true →
        process_feature_consolidate cfg f
            = (truncate_geometry f.geometry).map (fun truncated =>
                { geometry := truncated, id := f.id,
                  properties := ([] : List (String × String)) }) ∧
          process_feature_retain cfg f
            = (truncate_geometry f.geometry).map (fun truncated =>
                { geometry := truncated, id := f.id,
                  properties := f.properties })) ∧
      (cfg.noCompression = false →
        cfg.simplificationStrategy = "rectangle" →
        (g.typeName = "Polygon" ∨ g.typeName = "MultiPolygon") →
        select_simplified_geometry cfg g = simplify_to_rectangle g) ∧
      (cfg.noCompression = false →
        cfg.simplificationStrategy = "douglas_peucker" →
        0 < cfg.simplificationTolerance →
        select_simplified_geometry cfg g
          = simplify_geometry g cfg.simplificationTolerance) ∧
      (cfg.noCompression = false →
        cfg.simplificationStrategy = "rectangle" →
        ¬ (g.typeName = "Polygon" ∨ g.typeName = "MultiPolygon") →
        select_simplified_geometry cfg g = g) ∧
      (cfg.noCompression = false →
        cfg.simplificationStrategy = "douglas_peucker" →
        cfg.simplificationTolerance ≤ 0 →
        select_simplified_geometry cfg g = g) ∧
      (cfg.noCompression = false →
        cfg.simplificationStrategy ≠ "rectangle" →
        cfg.simplificationStrategy ≠ "douglas_peucker" →
        select_simplified_geometry cfg g = g) := by
  refine ⟨?_, ?_, ?_, ?_, ?_, ?_, ?_⟩
  · intro hc
    unfold select_simplified_geometry
    rw [if_pos hc]
  · intro hc
    constructor
    · unfold process_feature_consolidate select_simplified_geometry
      rw [if_pos hc]
    · unfold process_feature_retain select_simplified_geometry
      rw [if_pos hc]
  · intro hc hs hp
    unfold select_simplified_geometry
    rw [if_neg (by simp [hc]), if_pos ⟨hs, hp⟩]
  · intro hc hs ht
    unfold select_simplified_geometry
    rw [if_neg (by simp [hc]), if_neg (by rw [hs]; simp),
      if_pos ⟨hs, ht⟩]
  · intro hc hs hnp
    unfold select_simplified_geometry
    rw [if_neg (by simp [hc]), if_neg (fun hand => hnp hand.2),
      if_neg (by rw [hs]; simp)]
  · intro hc hs hle
    unfold select_simplified_geometry
    rw [if_neg (by simp [hc]), if_neg (by rw [hs]; simp),
      if_neg (fun hand => absurd hand.2 (not_lt.2 hle))]
  · intro hc hr hd
    unfold select_simplified_geometry
    rw [if_neg (by simp [hc]), if_neg (fun hand => hr hand.1),
      if_neg (fun hand => hd hand.1)]

/-- Witness for C7: an unrecognized strategy tag falls through to the
no-simplification branch on a concrete line, and the noCompression
override passes a concrete geometry straight through the dispatch. -/
theorem select_simplified_geometry_dispatch_witness :
    ((⟨"off", 0, false⟩ : LayerConfig).noCompression = false ∧
      (⟨"off", 0, false⟩ : LayerConfig).simplificationStrategy
          ≠ "rectangle" ∧
      (⟨"off", 0, false⟩ : LayerConfig).simplificationStrategy
          ≠ "douglas_peucker" ∧
      select_simplified_geometry ⟨"off", 0, false⟩
          (.lineString [(0, 0), (1, 1)])
        = .lineString [(0, 0), (1, 1)]) ∧
    ((⟨"none", 0, true⟩ : LayerConfig).noCompression = true ∧
      select_simplified_geometry ⟨"none", 0, true⟩
          (.lineString [(0, 0), (1, 1)])
        = .lineString [(0, 0), (1, 1)]) := by
  constructor
  · refine ⟨rfl, by decide, by decide, ?_⟩
    exact (select_simplified_geometry_dispatch ⟨"off", 0, false⟩
      (.lineString [(0, 0), (1, 1)])
      ⟨.lineString [(0, 0), (1, 1)], none, []⟩).2.2.2.2.2.2
      rfl (by decide) (by decide)
  · refine ⟨rfl, ?_⟩
    exact (select_simplified_geometry_dispatch ⟨"none", 0, true⟩
      (.lineString [(0, 0), (1, 1)])
      ⟨.lineString [(0, 0), (1, 1)], none, []⟩).1 rfl
